import Mathlib

/-!
Shallow embedding of the tradestation-python-client core subsystems:

* `src/src/auth.py` — `TokenManager` (`_load`/`_save`/`_is_expired`/`_refresh`/
  `get_token`), including a small-step interleaving model of `get_token`
  under concurrent callers serialized by the class-level lock;
* `src/src/tradestation_api_python/base_client.py` — `BaseAPIClient.make_request`
  (401-refresh-retry) and `BaseStreamClient._run_stream`/`stream_loop`;
* `src/src/tradestation_python_client/endpoints/mkt_data.py` —
  `MarketDataAPI._chunk_dates` / `get_bars_between` (range chunking, parallel
  fetch and merge).

Python dictionaries are modelled as association lists over a small JSON value
type; machine time is an `Int` epoch-seconds value passed explicitly; network
responses are explicit inputs; exceptions are `Except` results.
-/

namespace TSC

/-- JSON-ish scalar values stored in Python dicts of this code base. -/
inductive JVal where
  | jstr (s : String)
  | jnum (n : Int)
  deriving Repr, DecidableEq

/-- A Python dict with string keys, modelled as an association list.
Keys are unique in every dict the code builds; `get?` returns the first
binding, matching `dict.get`. -/
abbrev PyDict := List (String × JVal)

/-- `d.get(k)` (returns `None` when the key is absent). -/
def dictGet (d : PyDict) (k : String) : Option JVal :=
  (d.find? (fun p => p.1 == k)).map (fun p => p.2)

/-- `d[k] = v`: replace the first binding of `k`, or append a new one. -/
def dictSet (d : PyDict) (k : String) (v : JVal) : PyDict :=
  match d with
  | [] => [(k, v)]
  | (k₀, v₀) :: rest =>
    if k₀ == k then (k₀, v) :: rest else (k₀, v₀) :: dictSet rest k v

/-- Python `int(x)` on a dict value: identity on integers, decimal-string
parse on strings (a non-numeric string raises `ValueError`, modelled as
`none`). -/
def jToInt : JVal → Option Int
  | JVal.jnum n => some n
  | JVal.jstr s => s.toInt?

/-- Python `str(x)` as used by f-string interpolation of a token value. -/
def jToStr : JVal → String
  | JVal.jstr s => s
  | JVal.jnum n => toString n

/-! ## `auth.py` — TokenManager -/

/-- The fixed 30-second safety buffer subtracted in `_is_expired`. -/
def SAFETY_MARGIN : Int := 30

/-- `TokenManager._is_expired` (`auth.py` lines 99–129): the record is
expired when `token_data` is empty, when `obtained_at` or `expires_in` is
absent, when either fails `int()` conversion, or when
`now >= obtained_at + expires_in - 30`. -/
def isExpired (data : PyDict) (now : Int) : Bool :=
  if data.isEmpty then true
  else
    match dictGet data "obtained_at", dictGet data "expires_in" with
    | some oa, some ei =>
      match jToInt oa, jToInt ei with
      | some o, some e => decide (now ≥ o + e - SAFETY_MARGIN)
      | _, _ => true
    | _, _ => true

/-- Configuration read from environment variables by `_refresh`. -/
structure Env where
  token_url : Option String
  client_id : Option String
  client_secret : Option String
  refresh_tok : Option String
  deriving Repr, DecidableEq

/-- The refresh endpoint's answer: HTTP success flag (`raise_for_status`)
and the decoded JSON body. -/
structure RefreshResponse where
  ok : Bool
  body : PyDict
  deriving Repr, DecidableEq

/-- TokenManager state: the in-memory `token_data` dict and the token file
contents (`none` when the file has never been written). -/
structure MgrState where
  token_data : PyDict
  file : Option PyDict
  deriving Repr, DecidableEq

/-- Errors that `get_token`/`_refresh` can raise. -/
inductive AuthErr where
  | missingUrl              -- `ValueError` for an unset `TS_TOKEN_URL`
  | httpError               -- `raise_for_status` on a non-2xx refresh answer
  | keyError (k : String)   -- subscript on a dict lacking `k`
  deriving Repr, DecidableEq

/-- `TokenManager._save` (`auth.py` lines 76–97): stamp `obtained_at` with
the current time, overwrite the token file with the whole record, and
replace the in-memory `token_data` reference. -/
def save (data : PyDict) (now : Int) (_st : MgrState) : MgrState :=
  let stamped := dictSet data "obtained_at" (JVal.jnum now)
  { token_data := stamped, file := some stamped }

/-- `TokenManager._refresh` (`auth.py` lines 131–171): check the endpoint
URL, POST the refresh request (its outcome is the explicit `resp` input),
default the answer's `refresh_token` to the value sent in the request
payload — `os.getenv("TS_REFRESH_TOKEN")` — when the server omits it,
persist via `_save`, and return `new_data["access_token"]`. -/
def refreshTok (env : Env) (resp : RefreshResponse) (now : Int)
    (st : MgrState) : Except AuthErr (JVal × MgrState) :=
  match env.token_url with
  | none => Except.error AuthErr.missingUrl
  | some _ =>
    if !resp.ok then Except.error AuthErr.httpError
    else
      let payloadRT : JVal := JVal.jstr (env.refresh_tok.getD "")
      let new_data :=
        dictSet resp.body "refresh_token"
          ((dictGet resp.body "refresh_token").getD payloadRT)
      match dictGet new_data "access_token" with
      | none => Except.error (AuthErr.keyError "access_token")
      | some tok => Except.ok (tok, save new_data now st)

/-- `TokenManager.get_token` (`auth.py` lines 173–198), sequential (single
caller) form: fast-path return when the record is non-empty and fresh,
otherwise lock, re-check, refresh, and return the new token. The returned
`Nat` counts network refresh calls performed. -/
def getTokenSeq (env : Env) (resp : RefreshResponse) (now : Int)
    (st : MgrState) : Except AuthErr JVal × MgrState × Nat :=
  if !st.token_data.isEmpty && !isExpired st.token_data now then
    match dictGet st.token_data "access_token" with
    | some tok => (Except.ok tok, st, 0)
    | none => (Except.error (AuthErr.keyError "access_token"), st, 0)
  else
    -- under `TokenManager._lock`; the sequential form re-checks the same
    -- state, so the re-check gives the same answer and we refresh
    match refreshTok env resp now st with
    | Except.error e => (Except.error e, st, 1)
    | Except.ok (tok, st₁) =>
      -- `self.token_data["access_token"] = new_token` rewrites the key the
      -- fresh record already holds with the very value `_refresh` returned
      (Except.ok tok,
       { st₁ with token_data := dictSet st₁.token_data "access_token" tok },
       1)

end TSC

/-! ## C1 — expiry predicate -/

namespace TSC

/-- A dict whose `obtained_at` and `expires_in` bindings, when present,
hold integer values (as every record written by this code does). -/
def NumericExpiryFields (data : PyDict) : Prop :=
  (∀ v, dictGet data "obtained_at" = some v → ∃ n : Int, v = JVal.jnum n) ∧
  (∀ v, dictGet data "expires_in" = some v → ∃ n : Int, v = JVal.jnum n)

end TSC

/-- C1: for every credential record whose `obtained_at`/`expires_in` fields
hold integers when present, `_is_expired` judges it expired iff the record
is empty, or lacks `obtained_at` or `expires_in`, or the current time is at
least `obtained_at + expires_in - 30`. -/
theorem claim_C1_expiry_iff (data : TSC.PyDict) (now : Int)
    (hIF : TSC.NumericExpiryFields data) :
    TSC.isExpired data now = true ↔
      (data = [] ∨
       TSC.dictGet data "obtained_at" = none ∨
       TSC.dictGet data "expires_in" = none ∨
       ∃ o e : Int,
         TSC.dictGet data "obtained_at" = some (TSC.JVal.jnum o) ∧
         TSC.dictGet data "expires_in" = some (TSC.JVal.jnum e) ∧
         now ≥ o + e - TSC.SAFETY_MARGIN) := by
  obtain ⟨hoa, hei⟩ := hIF
  unfold TSC.isExpired
  by_cases hemp : data = []
  · subst hemp; simp
  · rw [if_neg (by simpa [List.isEmpty_iff] using hemp)]
    cases hgo : TSC.dictGet data "obtained_at" with
    | none => simp [hgo, hemp]
    | some oa =>
      cases hge : TSC.dictGet data "expires_in" with
      | none => simp [hgo, hge, hemp]
      | some ei =>
        obtain ⟨o, rfl⟩ := hoa oa hgo
        obtain ⟨e, rfl⟩ := hei ei hge
        simp only [TSC.jToInt]
        constructor
        · intro h
          refine Or.inr (Or.inr (Or.inr ⟨o, e, rfl, rfl, ?_⟩))
          simpa using h
        · rintro (h | h | h | ⟨o', e', ho', he', hle⟩)
          · exact absurd h hemp
          · simp at h
          · simp at h
          · obtain rfl : o = o' := by simpa using ho'
            obtain rfl : e = e' := by simpa using he'
            simpa using hle

/-- C1 witness: a concrete complete record, judged expired at a time past
its safety-margin-adjusted expiry. -/
theorem claim_C1_expiry_iff_witness :
    TSC.isExpired
        [("access_token", TSC.JVal.jstr "tok"),
         ("obtained_at", TSC.JVal.jnum 1000),
         ("expires_in", TSC.JVal.jnum 600)] 1570 = true := by
  have h := claim_C1_expiry_iff
    [("access_token", TSC.JVal.jstr "tok"),
     ("obtained_at", TSC.JVal.jnum 1000),
     ("expires_in", TSC.JVal.jnum 600)] 1570
    (by constructor <;> (intro v hv; simp [TSC.dictGet] at hv; exact ⟨_, hv.symm⟩))
  exact h.mpr (by right; right; right; exact ⟨1000, 600, by simp [TSC.dictGet], by simp [TSC.dictGet], by decide⟩)

/-! ## dict lemmas shared by several claims -/

namespace TSC

theorem dictGet_dictSet_self (d : PyDict) (k : String) (v : JVal) :
    dictGet (dictSet d k v) k = some v := by
  induction d with
  | nil =>
    simp only [dictSet, dictGet, List.find?, beq_self_eq_true]
    rfl
  | cons p rest ih =>
    obtain ⟨k₀, v₀⟩ := p
    by_cases h : k₀ = k
    · subst h
      simp only [dictSet, beq_self_eq_true, if_true, dictGet, List.find?]
      rfl
    · have hb : (k₀ == k) = false := beq_eq_false_iff_ne.mpr h
      simp only [dictSet, hb, Bool.false_eq_true, if_false]
      simp only [dictGet, List.find?, hb] at ih ⊢
      exact ih

theorem dictGet_dictSet_ne (d : PyDict) (k k' : String) (v : JVal)
    (hne : k ≠ k') :
    dictGet (dictSet d k v) k' = dictGet d k' := by
  have hb : (k == k') = false := beq_eq_false_iff_ne.mpr hne
  induction d with
  | nil => simp only [dictSet, dictGet, List.find?, hb, Option.map_none]
  | cons p rest ih =>
    obtain ⟨k₀, v₀⟩ := p
    by_cases h : k₀ = k
    · subst h
      simp only [dictSet, beq_self_eq_true, if_true, dictGet, List.find?, hb]
    · have hb₀ : (k₀ == k) = false := beq_eq_false_iff_ne.mpr h
      simp only [dictSet, hb₀, Bool.false_eq_true, if_false]
      by_cases h' : k₀ = k'
      · subst h'
        simp only [dictGet, List.find?, beq_self_eq_true]
      · have hb' : (k₀ == k') = false := beq_eq_false_iff_ne.mpr h'
        simp only [dictGet, List.find?, hb'] at ih ⊢
        exact ih

end TSC

/-! ## C10 — the fast path of `get_token` is read-only -/

/-- C10: calling `get_token` while the in-memory record is non-empty and
not expired returns the record's `access_token` value, performs zero
refreshes, and leaves the manager state (in-memory `token_data` and the
on-disk file alike) exactly as it was. -/
theorem claim_C10_fast_path_frame (env : TSC.Env) (resp : TSC.RefreshResponse)
    (now : Int) (st : TSC.MgrState) (tok : TSC.JVal)
    (hne : st.token_data.isEmpty = false)
    (hfresh : TSC.isExpired st.token_data now = false)
    (htok : TSC.dictGet st.token_data "access_token" = some tok) :
    TSC.getTokenSeq env resp now st = (Except.ok tok, st, 0) := by
  unfold TSC.getTokenSeq
  rw [hne, hfresh]
  simp [htok]

/-- C10 witness: a fresh concrete record is returned as-is with no state
change and no refresh. -/
theorem claim_C10_fast_path_frame_witness :
    TSC.getTokenSeq ⟨none, none, none, none⟩ ⟨false, []⟩ 1000
        ⟨[("access_token", TSC.JVal.jstr "tok"),
          ("obtained_at", TSC.JVal.jnum 900),
          ("expires_in", TSC.JVal.jnum 600)], none⟩ =
      (Except.ok (TSC.JVal.jstr "tok"),
       ⟨[("access_token", TSC.JVal.jstr "tok"),
         ("obtained_at", TSC.JVal.jnum 900),
         ("expires_in", TSC.JVal.jnum 600)], none⟩, 0) :=
  claim_C10_fast_path_frame _ _ _ _ _ (by decide) (by decide) (by decide)

/-! ## C3 — what a successful refresh writes -/

/-- C3 (amended): on a successful refresh, the new record's
`refresh_token` equals the server-supplied value when the server returns
one and otherwise the refresh token taken from configuration (the
`TS_REFRESH_TOKEN` environment variable, which is what the request payload
carried); `obtained_at` is stamped with the current time; the on-disk file
is overwritten with exactly the new record; and the result is independent
of the previous in-memory record (wholesale replacement, no merge). -/
theorem claim_C3_amended_refresh_record (env : TSC.Env)
    (resp : TSC.RefreshResponse) (now : Int) (st : TSC.MgrState)
    (u rt : String) (tok : TSC.JVal)
    (hurl : env.token_url = some u)
    (hok : resp.ok = true)
    (hrt : env.refresh_tok = some rt)
    (htok : TSC.dictGet resp.body "access_token" = some tok)
    (hk : "refresh_token" ≠ "access_token") :
    ∃ st' : TSC.MgrState,
      TSC.refreshTok env resp now st = Except.ok (tok, st') ∧
      TSC.dictGet st'.token_data "refresh_token" =
        some ((TSC.dictGet resp.body "refresh_token").getD
          (TSC.JVal.jstr rt)) ∧
      TSC.dictGet st'.token_data "obtained_at" =
        some (TSC.JVal.jnum now) ∧
      st'.file = some st'.token_data ∧
      (∀ st₂ : TSC.MgrState,
        TSC.refreshTok env resp now st₂ = TSC.refreshTok env resp now st) := by
  unfold TSC.refreshTok
  rw [hurl, hok, hrt]
  simp only [Option.getD_some, Bool.not_true, Bool.false_eq_true, if_false]
  rw [TSC.dictGet_dictSet_ne _ _ _ _ hk, htok]
  refine ⟨_, rfl, ?_, ?_, rfl, fun st₂ => ?_⟩
  · show TSC.dictGet (TSC.dictSet _ "obtained_at" _) "refresh_token" = _
    rw [TSC.dictGet_dictSet_ne _ _ _ _ (by decide),
        TSC.dictGet_dictSet_self]
  · exact TSC.dictGet_dictSet_self _ _ _
  · rfl

/-- C3 counterexample: the claim as stated says the fallback is the
refresh token of the previous in-memory record; but with a previous record
holding `refresh_token = "rt_old"`, configuration holding
`TS_REFRESH_TOKEN = "rt_env"`, and a server answer omitting
`refresh_token`, the new record stores `"rt_env"`, not `"rt_old"`. -/
theorem claim_C3_refresh_fallback_counterexample :
    (match TSC.refreshTok
        ⟨some "https://signin.example/token", some "cid", some "sec",
         some "rt_env"⟩
        ⟨true, [("access_token", TSC.JVal.jstr "newtok"),
                ("expires_in", TSC.JVal.jnum 1200)]⟩
        2000
        ⟨[("access_token", TSC.JVal.jstr "oldtok"),
          ("refresh_token", TSC.JVal.jstr "rt_old"),
          ("obtained_at", TSC.JVal.jnum 100),
          ("expires_in", TSC.JVal.jnum 1200)], none⟩ with
     | Except.ok (_, st') => TSC.dictGet st'.token_data "refresh_token"
     | Except.error _ => none) = some (TSC.JVal.jstr "rt_env") ∧
    TSC.dictGet
        [("access_token", TSC.JVal.jstr "oldtok"),
         ("refresh_token", TSC.JVal.jstr "rt_old"),
         ("obtained_at", TSC.JVal.jnum 100),
         ("expires_in", TSC.JVal.jnum 1200)] "refresh_token" ≠
      some (TSC.JVal.jstr "rt_env") := by
  constructor
  · decide
  · decide


/-! ## C2 — `get_token` under concurrent callers

`get_token` (`auth.py` lines 173–198) is the double-checked locking
pattern: an unlocked fast-path read, then acquisition of the class-level
`TokenManager._lock`, a re-check, and at most one `_refresh`.  We model an
arbitrary interleaving of `N` caller threads as a small-step transition
system.  `fresh` stands for the record `_save` publishes on a successful
refresh: `self.token_data` is replaced by a whole new object, so a reader
observes either the old record or the new one, never a partial write. -/

namespace TSC

/-- Program counter of one thread executing `TokenManager.get_token`. -/
inductive TPC where
  | fastCheck                  -- about to run the unlocked fast-path check
  | acquire                    -- fast path failed; blocked on `_lock`
  | recheck                    -- holds the lock; about to re-check expiry
  | working                    -- holds the lock; `_refresh` call in flight
  | done (res : Option JVal)   -- returned `token_data["access_token"]`
  deriving Repr, DecidableEq

/-- Shared state of one `TokenManager` plus the program counters of its
concurrent callers. -/
structure Sys where
  record : PyDict     -- `self.token_data`
  lockHeld : Bool     -- `TokenManager._lock`
  refreshes : Nat     -- network refresh calls performed so far
  threads : List TPC
  deriving Repr, DecidableEq

/-- One interleaving step of the concurrent `get_token` system.  The
stepping thread sits between `l` and `r`. -/
inductive Step (fresh : PyDict) (now : Int) : Sys → Sys → Prop
  | fastHit (rec : PyDict) (lk : Bool) (n : Nat) (l r : List TPC)
      (hne : rec.isEmpty = false) (hfr : isExpired rec now = false) :
      Step fresh now ⟨rec, lk, n, l ++ TPC.fastCheck :: r⟩
        ⟨rec, lk, n, l ++ TPC.done (dictGet rec "access_token") :: r⟩
  | fastMiss (rec : PyDict) (lk : Bool) (n : Nat) (l r : List TPC)
      (h : rec.isEmpty = true ∨ isExpired rec now = true) :
      Step fresh now ⟨rec, lk, n, l ++ TPC.fastCheck :: r⟩
        ⟨rec, lk, n, l ++ TPC.acquire :: r⟩
  | acquireLock (rec : PyDict) (n : Nat) (l r : List TPC) :
      Step fresh now ⟨rec, false, n, l ++ TPC.acquire :: r⟩
        ⟨rec, true, n, l ++ TPC.recheck :: r⟩
  | recheckHit (rec : PyDict) (n : Nat) (l r : List TPC)
      (hne : rec.isEmpty = false) (hfr : isExpired rec now = false) :
      Step fresh now ⟨rec, true, n, l ++ TPC.recheck :: r⟩
        ⟨rec, false, n, l ++ TPC.done (dictGet rec "access_token") :: r⟩
  | recheckMiss (rec : PyDict) (n : Nat) (l r : List TPC)
      (h : rec.isEmpty = true ∨ isExpired rec now = true) :
      Step fresh now ⟨rec, true, n, l ++ TPC.recheck :: r⟩
        ⟨rec, true, n, l ++ TPC.working :: r⟩
  | publish (rec : PyDict) (n : Nat) (l r : List TPC) :
      Step fresh now ⟨rec, true, n, l ++ TPC.working :: r⟩
        ⟨fresh, false, n + 1,
         l ++ TPC.done (dictGet fresh "access_token") :: r⟩

/-- Initial state: `N` callers all about to run the fast-path check. -/
def initSys (r0 : PyDict) (N : Nat) : Sys :=
  ⟨r0, false, 0, List.replicate N TPC.fastCheck⟩

/-- Threads inside the locked region. -/
def isLockedB : TPC → Bool
  | TPC.recheck => true
  | TPC.working => true
  | _ => false

def lockedCount (ts : List TPC) : Nat := ts.countP isLockedB

@[simp] theorem isLockedB_fastCheck : isLockedB TPC.fastCheck = false := rfl
@[simp] theorem isLockedB_acquire : isLockedB TPC.acquire = false := rfl
@[simp] theorem isLockedB_recheck : isLockedB TPC.recheck = true := rfl
@[simp] theorem isLockedB_working : isLockedB TPC.working = true := rfl
@[simp] theorem isLockedB_done (res : Option JVal) :
    isLockedB (TPC.done res) = false := rfl

theorem lockedCount_append_cons (l r : List TPC) (t : TPC) :
    lockedCount (l ++ t :: r) =
      lockedCount l + lockedCount r + (if isLockedB t then 1 else 0) := by
  simp only [lockedCount, List.countP_append, List.countP_cons]
  omega

theorem lockedCount_pos_of_mem {ts : List TPC} {t : TPC}
    (ht : t ∈ ts) (hl : isLockedB t = true) : 0 < lockedCount ts := by
  rw [lockedCount, List.countP_pos_iff]
  exact ⟨t, ht, hl⟩

theorem lockedCount_replicate_fastCheck (N : Nat) :
    lockedCount (List.replicate N TPC.fastCheck) = 0 := by
  induction N with
  | zero => rfl
  | succ n ih =>
    rw [List.replicate_succ, lockedCount, List.countP_cons]
    rw [lockedCount] at ih
    simp [ih]

/-- A thread present in the new thread list, other than the stepping
thread's new program counter, was present before the step. -/
theorem mem_of_mem_append_cons {l r : List TPC} {t b : TPC}
    (ht : t ∈ l ++ b :: r) (hne : t ≠ b) (a : TPC) : t ∈ l ++ a :: r := by
  simp only [List.mem_append, List.mem_cons] at ht ⊢
  rcases ht with h | h | h
  · exact Or.inl h
  · exact absurd h hne
  · exact Or.inr (Or.inr h)

/-- The inductive invariant of the concurrent `get_token` system: the
refresh counter never passes 1 and determines the published record; the
locked region holds at most one thread, none when the lock is free; a
thread mid-refresh means no refresh has finished yet; and a finished
thread has observed the fresh record's access token. -/
def Inv (r0 fresh : PyDict) (s : Sys) : Prop :=
  ((s.refreshes = 0 ∧ s.record = r0) ∨ (s.refreshes = 1 ∧ s.record = fresh))
  ∧ (s.lockHeld = false → lockedCount s.threads = 0)
  ∧ lockedCount s.threads ≤ 1
  ∧ (∀ t ∈ s.threads, t = TPC.working → s.refreshes = 0)
  ∧ (∀ res, TPC.done res ∈ s.threads →
      s.refreshes = 1 ∧ res = dictGet fresh "access_token")

theorem inv_init (r0 fresh : PyDict) (N : Nat) :
    Inv r0 fresh (initSys r0 N) := by
  refine ⟨Or.inl ⟨rfl, rfl⟩,
    fun _ => lockedCount_replicate_fastCheck N,
    by rw [show (initSys r0 N).threads = List.replicate N TPC.fastCheck from rfl,
           lockedCount_replicate_fastCheck]; omega,
    ?_, ?_⟩
  · intro t ht heq
    rw [List.eq_of_mem_replicate ht] at heq
    cases heq
  · intro res hres
    cases List.eq_of_mem_replicate hres

theorem inv_step (r0 fresh : PyDict) (now : Int)
    (hr0 : isExpired r0 now = true)
    (hfne : fresh.isEmpty = false)
    (hffr : isExpired fresh now = false)
    {s s' : Sys} (hstep : Step fresh now s s')
    (hinv : Inv r0 fresh s) : Inv r0 fresh s' := by
  obtain ⟨h1, h2, h3, h4, h5⟩ := hinv
  cases hstep with
  | fastHit rec lk n l r hne hfr =>
    have hrf : n = 1 ∧ rec = fresh := by
      rcases h1 with ⟨hn, hrec⟩ | ⟨hn, hrec⟩
      · exfalso; rw [show rec = r0 from hrec, hr0] at hfr; cases hfr
      · exact ⟨hn, hrec⟩
    obtain ⟨hn1, hrecf⟩ := hrf
    refine ⟨Or.inr ⟨hn1, hrecf⟩, ?_, ?_, ?_, ?_⟩
    · intro hlk
      have := h2 hlk
      rw [lockedCount_append_cons] at this ⊢
      simpa using this
    · rw [lockedCount_append_cons] at h3 ⊢
      simpa using h3
    · intro t ht heq
      subst heq
      exact h4 _ (mem_of_mem_append_cons ht (by simp) _) rfl
    · intro res hres
      simp only [List.mem_append, List.mem_cons] at hres
      rcases hres with h | h | h
      · exact h5 res (by simp [h])
      · cases h; exact ⟨hn1, by rw [hrecf]⟩
      · exact h5 res (by simp [h])
  | fastMiss rec lk n l r h =>
    refine ⟨h1, ?_, ?_, ?_, ?_⟩
    · intro hlk
      have := h2 hlk
      rw [lockedCount_append_cons] at this ⊢
      simpa using this
    · rw [lockedCount_append_cons] at h3 ⊢
      simpa using h3
    · intro t ht heq
      subst heq
      exact h4 _ (mem_of_mem_append_cons ht (by simp) _) rfl
    · intro res hres
      exact h5 res (mem_of_mem_append_cons hres (by simp) _)
  | acquireLock rec n l r =>
    have hz := h2 rfl
    rw [lockedCount_append_cons] at hz
    simp only [isLockedB_acquire, if_neg (by simp : ¬False), Bool.false_eq_true,
      if_false, Nat.add_zero] at hz
    refine ⟨h1, ?_, ?_, ?_, ?_⟩
    · intro hlk; cases hlk
    · rw [lockedCount_append_cons]
      simp only [isLockedB_recheck, if_true]
      omega
    · intro t ht heq
      subst heq
      exact h4 _ (mem_of_mem_append_cons ht (by simp) _) rfl
    · intro res hres
      exact h5 res (mem_of_mem_append_cons hres (by simp) _)
  | recheckHit rec n l r hne hfr =>
    have hrf : n = 1 ∧ rec = fresh := by
      rcases h1 with ⟨hn, hrec⟩ | ⟨hn, hrec⟩
      · exfalso; rw [show rec = r0 from hrec, hr0] at hfr; cases hfr
      · exact ⟨hn, hrec⟩
    obtain ⟨hn1, hrecf⟩ := hrf
    rw [lockedCount_append_cons] at h3
    simp only [isLockedB_recheck, if_true] at h3
    refine ⟨Or.inr ⟨hn1, hrecf⟩, ?_, ?_, ?_, ?_⟩
    · intro _
      rw [lockedCount_append_cons]
      simp only [isLockedB_done, Bool.false_eq_true, if_false]
      omega
    · rw [lockedCount_append_cons]
      simp only [isLockedB_done, Bool.false_eq_true, if_false]
      omega
    · intro t ht heq
      subst heq
      exact h4 _ (mem_of_mem_append_cons ht (by simp) _) rfl
    · intro res hres
      simp only [List.mem_append, List.mem_cons] at hres
      rcases hres with h | h | h
      · exact h5 res (by simp [h])
      · cases h; exact ⟨hn1, by rw [hrecf]⟩
      · exact h5 res (by simp [h])
  | recheckMiss rec n l r h =>
    have hrne : rec ≠ fresh := by
      intro hcontra
      rcases h with hh | hh
      · rw [hcontra, hfne] at hh; cases hh
      · rw [hcontra, hffr] at hh; cases hh
    have hn0 : n = 0 ∧ rec = r0 := by
      rcases h1 with ⟨hn, hrec⟩ | ⟨hn, hrec⟩
      · exact ⟨hn, hrec⟩
      · exact absurd hrec hrne
    refine ⟨Or.inl hn0, ?_, ?_, ?_, ?_⟩
    · intro hlk; cases hlk
    · rw [lockedCount_append_cons] at h3 ⊢
      simp only [isLockedB_recheck, isLockedB_working, if_true] at h3 ⊢
      omega
    · intro t _ _
      exact hn0.1
    · intro res hres
      exfalso
      have hcontra : n = 1 :=
        (h5 res (mem_of_mem_append_cons hres (by simp) TPC.recheck)).1
      omega
  | publish rec n l r =>
    have hn0 : n = 0 := h4 TPC.working (by simp) rfl
    rw [lockedCount_append_cons] at h3
    simp only [isLockedB_working, if_true] at h3
    refine ⟨Or.inr ⟨show n + 1 = 1 by omega, rfl⟩, ?_, ?_, ?_, ?_⟩
    · intro _
      rw [lockedCount_append_cons]
      simp only [isLockedB_done, Bool.false_eq_true, if_false]
      omega
    · rw [lockedCount_append_cons]
      simp only [isLockedB_done, Bool.false_eq_true, if_false]
      omega
    · intro t ht heq
      subst heq
      exfalso
      have hmem := mem_of_mem_append_cons ht (by simp) TPC.fastCheck
      simp only [List.mem_append, List.mem_cons] at hmem
      rcases hmem with hh | hh | hh
      · have := lockedCount_pos_of_mem hh isLockedB_working
        omega
      · cases hh
      · have := lockedCount_pos_of_mem hh isLockedB_working
        omega
    · intro res hres
      simp only [List.mem_append, List.mem_cons] at hres
      rcases hres with hh | hh | hh
      · exfalso
        have hcontra : n = 1 := (h5 res (by simp [hh])).1
        omega
      · cases hh; exact ⟨show n + 1 = 1 by omega, rfl⟩
      · exfalso
        have hcontra : n = 1 := (h5 res (by simp [hh])).1
        omega

end TSC

namespace TSC

theorem step_threads_length {fresh : PyDict} {now : Int} {s s' : Sys}
    (hstep : Step fresh now s s') : s'.threads.length = s.threads.length := by
  cases hstep <;> simp

theorem inv_reachable (r0 fresh : PyDict) (now : Int) (N : Nat)
    (hr0 : isExpired r0 now = true)
    (hfne : fresh.isEmpty = false)
    (hffr : isExpired fresh now = false)
    {s : Sys}
    (hreach : Relation.ReflTransGen (Step fresh now) (initSys r0 N) s) :
    Inv r0 fresh s := by
  induction hreach with
  | refl => exact inv_init r0 fresh N
  | tail hsteps hstep ih => exact inv_step r0 fresh now hr0 hfne hffr hstep ih

theorem reachable_threads_length (r0 fresh : PyDict) (now : Int) (N : Nat)
    {s : Sys}
    (hreach : Relation.ReflTransGen (Step fresh now) (initSys r0 N) s) :
    s.threads.length = N := by
  induction hreach with
  | refl => simp [initSys]
  | tail hsteps hstep ih => rw [step_threads_length hstep, ih]

end TSC

/-- C2: start `N ≥ 1` concurrent `get_token` callers against a record that
is expired or absent, where a successful refresh publishes the non-expired
record `fresh`.  In every interleaving that runs all callers to
completion, exactly one network refresh was performed and every caller
returned the same access token — the one of the freshly published
record. -/
theorem claim_C2_single_refresh (r0 fresh : TSC.PyDict) (now : Int) (N : Nat)
    (s : TSC.Sys)
    (hr0 : TSC.isExpired r0 now = true)
    (hfne : fresh.isEmpty = false)
    (hffr : TSC.isExpired fresh now = false)
    (hN : 0 < N)
    (hreach : Relation.ReflTransGen (TSC.Step fresh now) (TSC.initSys r0 N) s)
    (hdone : ∀ t ∈ s.threads, ∃ res, t = TSC.TPC.done res) :
    s.refreshes = 1 ∧
      ∀ t ∈ s.threads,
        t = TSC.TPC.done (TSC.dictGet fresh "access_token") := by
  obtain ⟨h1, h2, h3, h4, h5⟩ :=
    TSC.inv_reachable r0 fresh now N hr0 hfne hffr hreach
  have hlen := TSC.reachable_threads_length r0 fresh now N hreach
  have hne : s.threads ≠ [] := by
    intro hcontra
    rw [hcontra] at hlen
    simp at hlen
    omega
  obtain ⟨t₀, ht₀⟩ := List.exists_mem_of_ne_nil s.threads hne
  obtain ⟨res₀, hres₀⟩ := hdone t₀ ht₀
  refine ⟨(h5 res₀ (hres₀ ▸ ht₀)).1, ?_⟩
  intro t ht
  obtain ⟨res, rfl⟩ := hdone t ht
  rw [(h5 res ht).2]

/-- C2 witness: two callers against an absent record; one interleaving in
which the first caller refreshes and the second then takes the fast path;
both finish with the refreshed token and one refresh was performed. -/
theorem claim_C2_single_refresh_witness :
    (TSC.Sys.mk
        [("access_token", TSC.JVal.jstr "newtok"),
         ("refresh_token", TSC.JVal.jstr "rt"),
         ("expires_in", TSC.JVal.jnum 1200),
         ("obtained_at", TSC.JVal.jnum 1000)]
        false 1
        [TSC.TPC.done (some (TSC.JVal.jstr "newtok")),
         TSC.TPC.done (some (TSC.JVal.jstr "newtok"))]).refreshes = 1 ∧
      ∀ t ∈ (TSC.Sys.mk
        [("access_token", TSC.JVal.jstr "newtok"),
         ("refresh_token", TSC.JVal.jstr "rt"),
         ("expires_in", TSC.JVal.jnum 1200),
         ("obtained_at", TSC.JVal.jnum 1000)]
        false 1
        [TSC.TPC.done (some (TSC.JVal.jstr "newtok")),
         TSC.TPC.done (some (TSC.JVal.jstr "newtok"))]).threads,
        t = TSC.TPC.done
          (TSC.dictGet
            [("access_token", TSC.JVal.jstr "newtok"),
             ("refresh_token", TSC.JVal.jstr "rt"),
             ("expires_in", TSC.JVal.jnum 1200),
             ("obtained_at", TSC.JVal.jnum 1000)] "access_token") := by
  refine claim_C2_single_refresh [] _ 1000 2 _ (by decide) (by decide)
    (by decide) (by decide) ?_ ?_
  · refine Relation.ReflTransGen.head
      (TSC.Step.fastMiss [] false 0 [] [TSC.TPC.fastCheck] (Or.inl rfl)) ?_
    refine Relation.ReflTransGen.head
      (TSC.Step.acquireLock [] 0 [] [TSC.TPC.fastCheck]) ?_
    refine Relation.ReflTransGen.head
      (TSC.Step.recheckMiss [] 0 [] [TSC.TPC.fastCheck] (Or.inl rfl)) ?_
    refine Relation.ReflTransGen.head
      (TSC.Step.publish [] 0 [] [TSC.TPC.fastCheck]) ?_
    refine Relation.ReflTransGen.head
      (TSC.Step.fastHit _ false 1
        [TSC.TPC.done (some (TSC.JVal.jstr "newtok"))] []
        (by decide) (by decide)) ?_
    exact Relation.ReflTransGen.refl
  · intro t ht
    simp only [List.mem_cons, List.not_mem_nil, or_false] at ht
    rcases ht with h | h
    · exact ⟨some (TSC.JVal.jstr "newtok"), h⟩
    · exact ⟨some (TSC.JVal.jstr "newtok"), h⟩

/-! ## `mkt_data.py` — `MarketDataAPI.get_bars_between` chunk planning

Dates are modelled as day numbers (`np.datetime64[D]` values); the
normalized `YYYY-MM-DD` strings compare exactly like their day numbers, so
`f_date > l_date` is the numeric comparison.  `bars_est` uses exact
rational division in place of Python float division: for every reachable
magnitude (`len(dates) ≤ 10^6`, `interval ≥ 1`) the float results round to
the same comparisons and truncations. -/

namespace TSC

/-- `MarketDataAPI.ts_max_bars_thresh`: 57,600 bars per request. -/
def ts_max_bars_thresh : Nat := 57600

/-- The units accepted by `get_bars_between` (any other raises
`ValueError` up front). -/
inductive BarUnit where
  | Minute | Daily | Weekly | Monthly
  deriving Repr, DecidableEq

/-- The per-day bar-count multiplier picked at `mkt_data.py` lines
243–248. -/
def multiplier : BarUnit → Nat
  | BarUnit.Minute => 1440
  | BarUnit.Daily => 365
  | BarUnit.Weekly => 52
  | BarUnit.Monthly => 12

/-- `np.arange(f_date, l_date + 1 day)`: the inclusive day range. -/
def dateRange (f l : Nat) : List Nat :=
  (List.range (l + 1 - f)).map (fun i => i + f)

/-- `range(0, n, max_days)` (`max_days ≥ 1`): the chunk start indices. -/
def chunkStarts (n max_days : Nat) : List Nat :=
  (List.range ((n + max_days - 1) / max_days)).map (fun j => j * max_days)

/-- `MarketDataAPI._chunk_dates` (`mkt_data.py` lines 59–85): for each
start index `i`, the pair `(dates[i], dates[min(i + max_days - 1, n - 1)])`. -/
def chunk_dates (dates : List Nat) (max_days : Nat) : List (Nat × Nat) :=
  (chunkStarts dates.length max_days).map (fun i =>
    (dates.getD i 0,
     dates.getD (min (i + max_days - 1) (dates.length - 1)) 0))

/-- `bars_est = len(dates) * multiplier / interval` (true division). -/
def bars_est (n mult interval : Nat) : ℚ := (n * mult : ℚ) / interval

/-- `max_days = int(ts_max_bars_thresh * interval / multiplier)`:
truncation of a positive quotient is floor, i.e. `Nat` division. -/
def max_days_per_chunk (interval mult : Nat) : Nat :=
  ts_max_bars_thresh * interval / mult

/-- Observable network effects of one `get_bars_between` call, in program
order.  `tokenFetch` is the `self.token_manager.get_token()` call at line
234; `httpGet` is one `_request_with_retry` dispatch. -/
inductive NetEvent where
  | tokenFetch | httpGet
  deriving Repr, DecidableEq

/-- The call plan `get_bars_between` commits to. -/
inductive FetchPlan where
  | single (f l : Nat)
  | chunked (chunks : List (Nat × Nat))
  deriving Repr, DecidableEq

/-- The pre-dispatch control flow of `get_bars_between` (`mkt_data.py`
lines 217–295): date-order validation, then token fetch, then the
single-call-versus-chunked decision.  The second component lists the
network effects the call performs, in order. -/
def getBarsBetween (unit : BarUnit) (interval f l : Nat) :
    Except String FetchPlan × List NetEvent :=
  if f > l then
    (Except.error "first_data can't be greater then last_date", [])
  else
    let dates := dateRange f l
    let mult := multiplier unit
    if bars_est dates.length mult interval ≤ (ts_max_bars_thresh : ℚ) then
      (Except.ok (FetchPlan.single f l),
       [NetEvent.tokenFetch, NetEvent.httpGet])
    else
      let chunks := chunk_dates dates (max_days_per_chunk interval mult)
      (Except.ok (FetchPlan.chunked chunks),
       NetEvent.tokenFetch :: List.replicate chunks.length NetEvent.httpGet)

end TSC

/-! ## C8 — inverted date range fails before any network activity -/

/-- C8: whenever the normalized first date is strictly after the
normalized last date, `get_bars_between` raises its validation error and
the network-effect trace is empty — in particular no token refresh and no
HTTP request happens. -/
theorem claim_C8_inverted_range_no_network (unit : TSC.BarUnit)
    (interval f l : Nat) (hgt : f > l) :
    TSC.getBarsBetween unit interval f l =
      (Except.error "first_data can't be greater then last_date", []) := by
  unfold TSC.getBarsBetween
  rw [if_pos hgt]

/-- C8 witness: day 10 to day 3 fails with no network events. -/
theorem claim_C8_inverted_range_no_network_witness :
    TSC.getBarsBetween TSC.BarUnit.Minute 1 10 3 =
      (Except.error "first_data can't be greater then last_date", []) :=
  claim_C8_inverted_range_no_network TSC.BarUnit.Minute 1 10 3 (by decide)

/-! ## C4 — chunk plan structure -/

namespace TSC

theorem dateRange_length (f l : Nat) : (dateRange f l).length = l + 1 - f := by
  simp [dateRange]

theorem dateRange_getD (f l j : Nat) (hj : j < l + 1 - f) :
    (dateRange f l).getD j 0 = f + j := by
  rw [dateRange, List.getD_eq_getElem?_getD, List.getElem?_map,
      List.getElem?_range hj]
  simp [Nat.add_comm]

/-- Structure of `_chunk_dates` applied to an inclusive day range: the
chunk list is non-empty; every chunk stays inside `[f, l]`, is ordered and
spans at most `m` days; consecutive chunks are adjacent (next start = this
end + 1); the first chunk starts at `f`, the last ends at `l`; and a day
is covered by some chunk exactly when it lies in `[f, l]`. -/
theorem chunk_dates_range_spec (f l m : Nat) (hfl : f ≤ l) (hm : 0 < m) :
    chunk_dates (dateRange f l) m ≠ [] ∧
    (∀ p ∈ chunk_dates (dateRange f l) m,
      f ≤ p.1 ∧ p.1 ≤ p.2 ∧ p.2 ≤ l ∧ p.2 + 1 - p.1 ≤ m) ∧
    List.Chain' (fun p q : Nat × Nat => q.1 = p.2 + 1)
      (chunk_dates (dateRange f l) m) ∧
    (chunk_dates (dateRange f l) m).head?.map Prod.fst = some f ∧
    (chunk_dates (dateRange f l) m).getLast?.map Prod.snd = some l ∧
    (∀ d, (f ≤ d ∧ d ≤ l) ↔
      ∃ p ∈ chunk_dates (dateRange f l) m, p.1 ≤ d ∧ d ≤ p.2) := by
  obtain ⟨q, hq⟩ : ∃ q, (l + 1 - f - 1) / m = q := ⟨_, rfl⟩
  have hda : q * m + (l + 1 - f - 1) % m = l + 1 - f - 1 := by
    rw [← hq, Nat.mul_comm]
    exact Nat.div_add_mod _ _
  have hmod : (l + 1 - f - 1) % m < m := Nat.mod_lt _ hm
  have hk : (l + 1 - f + m - 1) / m = q + 1 := by
    rw [show l + 1 - f + m - 1 = (l + 1 - f - 1) + m by omega,
        Nat.add_div_right _ hm, hq]
  have hcs : chunk_dates (dateRange f l) m =
      (List.range (q + 1)).map (fun j =>
        (f + j * m, f + min (j * m + m - 1) (l + 1 - f - 1))) := by
    rw [chunk_dates, chunkStarts, dateRange_length, hk, List.map_map]
    refine List.map_congr_left ?_
    intro j hj
    rw [List.mem_range] at hj
    have hjm : j * m ≤ q * m := Nat.mul_le_mul_right m (by omega)
    simp only [Function.comp]
    clear hq hk
    rw [dateRange_getD f l _ (by omega), dateRange_getD f l _ (by omega)]
  rw [hcs]
  clear hk
  refine ⟨by simp, ?_, ?_, ?_, ?_, ?_⟩
  · intro p hp
    simp only [List.mem_map, List.mem_range] at hp
    obtain ⟨j, hj, rfl⟩ := hp
    have hjm : j * m ≤ q * m := Nat.mul_le_mul_right m (by omega)
    clear hq
    dsimp only
    omega
  · rw [List.chain'_map, List.chain'_range_succ]
    intro j hj
    simp only [Nat.succ_eq_add_one]
    have hjm : (j + 1) * m ≤ q * m := Nat.mul_le_mul_right m (by omega)
    have hsm : (j + 1) * m = j * m + m := by ring
    clear hq
    omega
  · rw [List.range_succ_eq_map]
    simp only [List.map_cons, List.head?_cons, Option.map_some']
    simp
  · rw [List.range_succ, List.map_append, List.map_cons, List.map_nil,
        List.getLast?_concat]
    simp only [Option.map_some', Option.some.injEq]
    clear hq
    omega
  · intro d
    constructor
    · rintro ⟨h1, h2⟩
      obtain ⟨j, hj⟩ : ∃ j, (d - f) / m = j := ⟨_, rfl⟩
      have hda₂ : j * m + (d - f) % m = d - f := by
        rw [← hj, Nat.mul_comm]
        exact Nat.div_add_mod _ _
      have hmod₂ : (d - f) % m < m := Nat.mod_lt _ hm
      have hjq : j ≤ q := by
        rw [← hj, ← hq]
        exact Nat.div_le_div_right (by omega)
      have hjm : j * m ≤ q * m := Nat.mul_le_mul_right m hjq
      clear hj hq
      refine ⟨(f + j * m, f + min (j * m + m - 1) (l + 1 - f - 1)),
        ?_, ?_, ?_⟩
      · simp only [List.mem_map, List.mem_range]
        exact ⟨j, by omega, rfl⟩
      · dsimp only
        omega
      · dsimp only
        omega
    · rintro ⟨p, hp, hd1, hd2⟩
      simp only [List.mem_map, List.mem_range] at hp
      obtain ⟨j, hj, rfl⟩ := hp
      have hjm : j * m ≤ q * m := Nat.mul_le_mul_right m (by omega)
      clear hq
      dsimp only at hd1 hd2
      omega

theorem bars_est_le_iff (n mult interval : Nat) (hint : 0 < interval) :
    (bars_est n mult interval ≤ (ts_max_bars_thresh : ℚ)) ↔
      n * mult ≤ ts_max_bars_thresh * interval := by
  have hc : (0 : ℚ) < (interval : ℚ) := by exact_mod_cast hint
  rw [bars_est, div_le_iff₀ hc]
  constructor
  · intro h; exact_mod_cast h
  · intro h; exact_mod_cast h

end TSC

/-- C4: for a minute-resolution request over the inclusive day range
`[f, l]`, `get_bars_between` performs a single call exactly when the bar
estimate (inclusive day count × 1440 / interval) is at most 57,600;
otherwise it partitions the range into consecutive adjacent chunks of at
most `⌊57600 · interval / 1440⌋` days each — non-empty, ordered, first
starting at `f`, last ending at `l`, jointly covering exactly the days of
`[f, l]` with no gaps (the last chunk possibly shorter). -/
theorem claim_C4_chunk_plan (interval f l : Nat) (hfl : f ≤ l)
    (hint : 0 < interval) :
    ((l + 1 - f) * 1440 ≤ TSC.ts_max_bars_thresh * interval →
      TSC.getBarsBetween TSC.BarUnit.Minute interval f l =
        (Except.ok (TSC.FetchPlan.single f l),
         [TSC.NetEvent.tokenFetch, TSC.NetEvent.httpGet])) ∧
    (TSC.ts_max_bars_thresh * interval < (l + 1 - f) * 1440 →
      ∃ cs, TSC.getBarsBetween TSC.BarUnit.Minute interval f l =
          (Except.ok (TSC.FetchPlan.chunked cs),
           TSC.NetEvent.tokenFetch ::
             List.replicate cs.length TSC.NetEvent.httpGet) ∧
        cs ≠ [] ∧
        (∀ p ∈ cs, f ≤ p.1 ∧ p.1 ≤ p.2 ∧ p.2 ≤ l ∧
          p.2 + 1 - p.1 ≤ TSC.ts_max_bars_thresh * interval / 1440) ∧
        List.Chain' (fun p q : Nat × Nat => q.1 = p.2 + 1) cs ∧
        cs.head?.map Prod.fst = some f ∧
        cs.getLast?.map Prod.snd = some l ∧
        (∀ d, (f ≤ d ∧ d ≤ l) ↔ ∃ p ∈ cs, p.1 ≤ d ∧ d ≤ p.2)) := by
  have hngt : ¬ f > l := by omega
  have hlen := TSC.dateRange_length f l
  constructor
  · intro h
    simp only [TSC.getBarsBetween, TSC.multiplier]
    rw [if_neg hngt]
    rw [if_pos]
    rw [hlen]
    exact (TSC.bars_est_le_iff _ _ _ hint).mpr h
  · intro h
    have hcond : ¬ (TSC.bars_est (TSC.dateRange f l).length 1440 interval ≤
        (TSC.ts_max_bars_thresh : ℚ)) := by
      rw [hlen]
      intro hcontra
      have := (TSC.bars_est_le_iff _ _ _ hint).mp hcontra
      omega
    have hm : 0 < TSC.max_days_per_chunk interval 1440 := by
      have h1 : 57600 * 1 ≤ 57600 * interval :=
        Nat.mul_le_mul_left 57600 hint
      rw [TSC.max_days_per_chunk, TSC.ts_max_bars_thresh]
      show 1 ≤ 57600 * interval / 1440
      rw [Nat.le_div_iff_mul_le (by norm_num)]
      omega
    obtain ⟨hs1, hs2, hs3, hs4, hs5, hs6⟩ :=
      TSC.chunk_dates_range_spec f l (TSC.max_days_per_chunk interval 1440)
        hfl hm
    refine ⟨TSC.chunk_dates (TSC.dateRange f l)
        (TSC.max_days_per_chunk interval 1440),
      ?_, hs1, hs2, hs3, hs4, hs5, hs6⟩
    simp only [TSC.getBarsBetween, TSC.multiplier]
    rw [if_neg hngt, if_neg hcond]

/-- C4 witness: a 120-day range at 1-minute interval is chunked; all
chunks are at most 40 days long, adjacent, and cover all 120 days. -/
theorem claim_C4_chunk_plan_witness :
    ∃ cs, TSC.getBarsBetween TSC.BarUnit.Minute 1 0 119 =
        (Except.ok (TSC.FetchPlan.chunked cs),
         TSC.NetEvent.tokenFetch ::
           List.replicate cs.length TSC.NetEvent.httpGet) ∧
      cs ≠ [] ∧
      (∀ p ∈ cs, p.1 ≤ p.2 ∧ p.2 ≤ 119 ∧ p.2 + 1 - p.1 ≤ 40) ∧
      List.Chain' (fun p q : Nat × Nat => q.1 = p.2 + 1) cs ∧
      cs.head?.map Prod.fst = some 0 ∧
      cs.getLast?.map Prod.snd = some 119 ∧
      (∀ d, (0 ≤ d ∧ d ≤ 119) ↔ ∃ p ∈ cs, p.1 ≤ d ∧ d ≤ p.2) := by
  obtain ⟨cs, h1, h2, h3, h4, h5, h6, h7⟩ :=
    (claim_C4_chunk_plan 1 0 119 (by decide) (by decide)).2 (by decide)
  refine ⟨cs, h1, h2, ?_, h4, h5, h6, h7⟩
  intro p hp
  have h := h3 p hp
  refine ⟨h.2.1, h.2.2.1, ?_⟩
  have hb := h.2.2.2
  simpa [TSC.ts_max_bars_thresh] using hb

/-! ## C5, C6 — parallel fetch merge (`mkt_data.py` lines 273–318) -/

namespace TSC

/-- One OHLCV bar: the `isoparse`-ordered `Time` key as an absolute
instant, plus the remaining payload fields, which the merge never
inspects. -/
structure Bar where
  time : Int
  fields : PyDict
  deriving Repr, DecidableEq

/-- What one chunk future delivers to the merge loop: `failed` when
`fut.result()` re-raises after `_request_with_retry` exhausted its
attempts; otherwise the response's `Bars` value (`none` when the response
dict lacks the key). -/
inductive ChunkOutcome where
  | failed
  | success (bars : Option (List Bar))
  deriving Repr, DecidableEq

/-- The sort key order of `merged["Bars"].sort(key=lambda b:
isoparse(b["Time"]))`. -/
def barLE (a b : Bar) : Bool := a.time ≤ b.time

/-- One iteration of the `as_completed` merge loop (`mkt_data.py` lines
297–312): a raised future is skipped (`except Exception: continue`), a
response whose `Bars` is missing or empty is warned about and skipped,
anything else extends the accumulator. -/
def mergeStep (acc : List Bar) (o : ChunkOutcome) : List Bar :=
  match o with
  | ChunkOutcome.failed => acc
  | ChunkOutcome.success none => acc
  | ChunkOutcome.success (some bars) =>
    if bars.isEmpty then acc else acc ++ bars

/-- The whole merge loop over the futures in completion order, starting
from `merged = {"Bars": []}`. -/
def collectBars (outcomes : List ChunkOutcome) : List Bar :=
  outcomes.foldl mergeStep []

/-- Merge then `sort` ascending by the `Time` key (lines 314–318). -/
def mergeBars (outcomes : List ChunkOutcome) : List Bar :=
  (collectBars outcomes).mergeSort barLE

/-- The bars one outcome contributes to the merged result. -/
def outcomeBars : ChunkOutcome → List Bar
  | ChunkOutcome.failed => []
  | ChunkOutcome.success none => []
  | ChunkOutcome.success (some bars) => bars

theorem barLE_trans (a b c : Bar) (hab : barLE a b) (hbc : barLE b c) :
    barLE a c := by
  simp only [barLE, decide_eq_true_eq] at hab hbc ⊢
  omega

theorem barLE_total (a b : Bar) : barLE a b || barLE b a := by
  simp only [barLE, Bool.or_eq_true, decide_eq_true_eq]
  omega

theorem foldl_mergeStep (outs : List ChunkOutcome) :
    ∀ acc, outs.foldl mergeStep acc = acc ++ (outs.map outcomeBars).flatten := by
  induction outs with
  | nil => intro acc; simp
  | cons o rest ih =>
    intro acc
    rw [List.foldl_cons, ih]
    cases o with
    | failed => simp [mergeStep, outcomeBars]
    | success ob =>
      cases ob with
      | none => simp [mergeStep, outcomeBars]
      | some bars =>
        by_cases hb : bars.isEmpty
        · rw [List.isEmpty_iff] at hb
          subst hb
          simp [mergeStep, outcomeBars]
        · simp [mergeStep, hb, outcomeBars, List.append_assoc]

theorem collectBars_eq (outs : List ChunkOutcome) :
    collectBars outs = (outs.map outcomeBars).flatten := by
  simpa using foldl_mergeStep outs []

/-- Dropping the `[]` contributions of failed/empty chunks: the merged
content is the concatenation of exactly the successful chunks' bars. -/
theorem flatten_outcomeBars_eq_filterMap (outs : List ChunkOutcome) :
    (outs.map outcomeBars).flatten =
      (outs.filterMap (fun o => match o with
        | ChunkOutcome.success (some bars) => some bars
        | _ => none)).flatten := by
  induction outs with
  | nil => rfl
  | cons o rest ih =>
    cases o with
    | failed => simpa [outcomeBars] using ih
    | success ob =>
      cases ob with
      | none => simpa [outcomeBars] using ih
      | some bars => simp [outcomeBars, ih]

end TSC

/-- C5: whatever the completion order of the chunk futures, the merged
`Bars` list is sorted ascending by its timestamp key, and permuting the
completion order only permutes (in fact preserves, as a multiset) the
merged content. -/
theorem claim_C5_merge_sorted (outs outs₂ : List TSC.ChunkOutcome)
    (hperm : outs.Perm outs₂) :
    (TSC.mergeBars outs).Pairwise (fun a b => a.time ≤ b.time) ∧
    (TSC.mergeBars outs).Perm (TSC.mergeBars outs₂) := by
  constructor
  · have hs := List.sorted_mergeSort TSC.barLE_trans TSC.barLE_total
      (TSC.collectBars outs)
    rw [TSC.mergeBars]
    refine hs.imp ?_
    intro a b hab
    simpa [TSC.barLE] using hab
  · refine ((List.mergeSort_perm _ _).trans ?_).trans
      (List.mergeSort_perm (TSC.collectBars outs₂) _).symm
    rw [TSC.collectBars_eq, TSC.collectBars_eq]
    exact (hperm.map TSC.outcomeBars).flatten

/-- C5 witness: the spec's example — two chunks arriving with their bars
out of order, in either completion order, merge to sorted lists with the
same content. -/
theorem claim_C5_merge_sorted_witness :
    (TSC.mergeBars
        [TSC.ChunkOutcome.success (some [⟨2, []⟩, ⟨1, []⟩]),
         TSC.ChunkOutcome.success (some [⟨4, []⟩, ⟨3, []⟩])]).Pairwise
      (fun a b => a.time ≤ b.time) ∧
    (TSC.mergeBars
        [TSC.ChunkOutcome.success (some [⟨2, []⟩, ⟨1, []⟩]),
         TSC.ChunkOutcome.success (some [⟨4, []⟩, ⟨3, []⟩])]).Perm
      (TSC.mergeBars
        [TSC.ChunkOutcome.success (some [⟨4, []⟩, ⟨3, []⟩]),
         TSC.ChunkOutcome.success (some [⟨2, []⟩, ⟨1, []⟩])]) :=
  claim_C5_merge_sorted
    [TSC.ChunkOutcome.success (some [⟨2, []⟩, ⟨1, []⟩]),
     TSC.ChunkOutcome.success (some [⟨4, []⟩, ⟨3, []⟩])]
    [TSC.ChunkOutcome.success (some [⟨4, []⟩, ⟨3, []⟩]),
     TSC.ChunkOutcome.success (some [⟨2, []⟩, ⟨1, []⟩])]
    (List.Perm.swap _ _ _)

/-- C6: when some chunk's fetch raised after its retries, the merge still
returns; the failed chunk is excluded and the result is exactly the
successful chunks' bars (as a multiset), sorted by timestamp. -/
theorem claim_C6_partial_failure (outs : List TSC.ChunkOutcome)
    (hfail : TSC.ChunkOutcome.failed ∈ outs) :
    (TSC.mergeBars outs).Perm
      ((outs.filterMap (fun o => match o with
        | TSC.ChunkOutcome.success (some bars) => some bars
        | _ => none)).flatten) ∧
    (TSC.mergeBars outs).Pairwise (fun a b => a.time ≤ b.time) := by
  constructor
  · refine (List.mergeSort_perm _ _).trans ?_
    rw [TSC.collectBars_eq, TSC.flatten_outcomeBars_eq_filterMap]
  · have hs := List.sorted_mergeSort TSC.barLE_trans TSC.barLE_total
      (TSC.collectBars outs)
    rw [TSC.mergeBars]
    refine hs.imp ?_
    intro a b hab
    simpa [TSC.barLE] using hab

/-- C6 witness: three chunks, the middle one failed; the merge result is
a permutation of the two successful chunks' bars, sorted. -/
theorem claim_C6_partial_failure_witness :
    (TSC.mergeBars
        [TSC.ChunkOutcome.success (some [⟨2, []⟩]),
         TSC.ChunkOutcome.failed,
         TSC.ChunkOutcome.success (some [⟨1, []⟩])]).Perm
      (([TSC.ChunkOutcome.success (some [⟨2, []⟩]),
         TSC.ChunkOutcome.failed,
         TSC.ChunkOutcome.success (some [⟨1, []⟩])].filterMap
        (fun o => match o with
          | TSC.ChunkOutcome.success (some bars) => some bars
          | _ => none)).flatten) ∧
    (TSC.mergeBars
        [TSC.ChunkOutcome.success (some [⟨2, []⟩]),
         TSC.ChunkOutcome.failed,
         TSC.ChunkOutcome.success (some [⟨1, []⟩])]).Pairwise
      (fun a b => a.time ≤ b.time) :=
  claim_C6_partial_failure
    [TSC.ChunkOutcome.success (some [⟨2, []⟩]),
     TSC.ChunkOutcome.failed,
     TSC.ChunkOutcome.success (some [⟨1, []⟩])]
    (by simp)

/-- C3 witness: a successful refresh against a concrete state; the new
record carries the server's access token, the configured refresh token,
the stamped time, and is written to disk wholesale. -/
theorem claim_C3_amended_refresh_record_witness :
    ∃ st' : TSC.MgrState,
      TSC.refreshTok
          ⟨some "https://signin.example/token", some "cid", some "sec",
           some "rt_env"⟩
          ⟨true, [("access_token", TSC.JVal.jstr "newtok"),
                  ("expires_in", TSC.JVal.jnum 1200)]⟩
          2000 ⟨[], none⟩ =
        Except.ok (TSC.JVal.jstr "newtok", st') ∧
      TSC.dictGet st'.token_data "refresh_token" =
        some ((TSC.dictGet
          [("access_token", TSC.JVal.jstr "newtok"),
           ("expires_in", TSC.JVal.jnum 1200)] "refresh_token").getD
            (TSC.JVal.jstr "rt_env")) ∧
      TSC.dictGet st'.token_data "obtained_at" =
        some (TSC.JVal.jnum 2000) ∧
      st'.file = some st'.token_data ∧
      (∀ st₂ : TSC.MgrState,
        TSC.refreshTok
            ⟨some "https://signin.example/token", some "cid", some "sec",
             some "rt_env"⟩
            ⟨true, [("access_token", TSC.JVal.jstr "newtok"),
                    ("expires_in", TSC.JVal.jnum 1200)]⟩
            2000 st₂ =
          TSC.refreshTok
            ⟨some "https://signin.example/token", some "cid", some "sec",
             some "rt_env"⟩
            ⟨true, [("access_token", TSC.JVal.jstr "newtok"),
                    ("expires_in", TSC.JVal.jnum 1200)]⟩
            2000 ⟨[], none⟩) :=
  claim_C3_amended_refresh_record _ _ 2000 ⟨[], none⟩
    "https://signin.example/token" "rt_env" (TSC.JVal.jstr "newtok")
    rfl rfl rfl (by decide) (by decide)

/-! ## C7 — 401 refresh-and-retry in `BaseAPIClient.make_request` -/

namespace TSC

/-- One HTTP response: status code and decoded JSON body. -/
structure HttpResp where
  status : Nat
  body : PyDict
  deriving Repr, DecidableEq

/-- Errors `make_request` can raise. -/
inductive ReqError where
  | httpStatus (status : Nat) (body : PyDict)  -- from `raise_for_status`
  | auth (e : AuthErr)                         -- escaped from `get_token`
  deriving Repr, DecidableEq

/-- `resp.raise_for_status()` then `resp.json()`: the `requests` library
raises `HTTPError` — carrying the response's status and body — exactly
for status codes ≥ 400, and the body is returned otherwise. -/
def raiseForStatus (r : HttpResp) : Except ReqError PyDict :=
  if 400 ≤ r.status then Except.error (ReqError.httpStatus r.status r.body)
  else Except.ok r.body

/-- Everything observable about one `make_request` call. -/
structure ReqResult where
  result : Except ReqError PyDict
  headers : PyDict      -- the headers dict after the call
  attempts : Nat        -- HTTP GETs issued
  tmCalls : Nat         -- `token_manager.get_token()` invocations
  refreshes : Nat       -- network refreshes those invocations performed
  mgr : MgrState
  deriving Repr

/-- `BaseAPIClient.make_request`
(`tradestation_api_python/base_client.py` lines 23–57): GET once; if the
status is 401, call `token_manager.get_token()`, replace the
`Authorization` header, and GET exactly once more; finally
`raise_for_status` and return the parsed body.  `r1` is the first GET's
response; `r2` answers the retry and is only consumed on the 401 path. -/
def make_request (env : Env) (rresp : RefreshResponse) (now : Int)
    (st : MgrState) (headers : PyDict) (r1 r2 : HttpResp) : ReqResult :=
  if r1.status == 401 then
    match getTokenSeq env rresp now st with
    | (Except.error e, st₁, k) =>
      { result := Except.error (ReqError.auth e), headers := headers,
        attempts := 1, tmCalls := 1, refreshes := k, mgr := st₁ }
    | (Except.ok tok, st₁, k) =>
      { result := raiseForStatus r2,
        headers := dictSet headers "Authorization"
          (JVal.jstr ("Bearer " ++ jToStr tok)),
        attempts := 2, tmCalls := 1, refreshes := k, mgr := st₁ }
  else
    { result := raiseForStatus r1, headers := headers,
      attempts := 1, tmCalls := 0, refreshes := 0, mgr := st }

/-- `get_token` performs a refresh exactly when the stored record is
absent or expired, and otherwise none. -/
theorem getTokenSeq_refreshes_eq (env : Env) (rresp : RefreshResponse)
    (now : Int) (st : MgrState) :
    (getTokenSeq env rresp now st).2.2 =
      if !st.token_data.isEmpty && !isExpired st.token_data now then 0
      else 1 := by
  unfold getTokenSeq
  by_cases h : (!st.token_data.isEmpty && !isExpired st.token_data now) = true
  · rw [if_pos h, if_pos h]
    split <;> rfl
  · rw [if_neg h, if_neg h]
    split <;> rfl

end TSC

/-- C7 (amended): on a 401 first response, the executor calls
`TokenManager.get_token()` exactly once — which performs exactly one
network refresh when the stored record is absent or expired, and zero
otherwise — replaces the `Authorization` header with the returned token,
retries exactly once, returns the parsed body of any final response with
status < 400, and raises an error carrying status and body for any final
status ≥ 400. -/
theorem claim_C7_amended_auth_retry (env : TSC.Env)
    (rresp : TSC.RefreshResponse) (now : Int) (st : TSC.MgrState)
    (headers : TSC.PyDict) (r1 r2 : TSC.HttpResp) (tok : TSC.JVal)
    (st₁ : TSC.MgrState) (k : Nat)
    (h401 : r1.status = 401)
    (htok : TSC.getTokenSeq env rresp now st = (Except.ok tok, st₁, k)) :
    (TSC.make_request env rresp now st headers r1 r2).tmCalls = 1 ∧
    (TSC.make_request env rresp now st headers r1 r2).attempts = 2 ∧
    (TSC.make_request env rresp now st headers r1 r2).headers =
      TSC.dictSet headers "Authorization"
        (TSC.JVal.jstr ("Bearer " ++ TSC.jToStr tok)) ∧
    (TSC.make_request env rresp now st headers r1 r2).refreshes = k ∧
    (k = if !st.token_data.isEmpty && !TSC.isExpired st.token_data now
      then 0 else 1) ∧
    (r2.status < 400 →
      (TSC.make_request env rresp now st headers r1 r2).result =
        Except.ok r2.body) ∧
    (400 ≤ r2.status →
      (TSC.make_request env rresp now st headers r1 r2).result =
        Except.error (TSC.ReqError.httpStatus r2.status r2.body)) := by
  have hk := TSC.getTokenSeq_refreshes_eq env rresp now st
  rw [htok] at hk
  have hout : TSC.make_request env rresp now st headers r1 r2 =
      { result := TSC.raiseForStatus r2,
        headers := TSC.dictSet headers "Authorization"
          (TSC.JVal.jstr ("Bearer " ++ TSC.jToStr tok)),
        attempts := 2, tmCalls := 1, refreshes := k, mgr := st₁ } := by
    unfold TSC.make_request
    rw [if_pos (by simp [h401]), htok]
  rw [hout]
  refine ⟨rfl, rfl, rfl, rfl, hk, ?_, ?_⟩
  · intro h2
    simp only [TSC.raiseForStatus, if_neg (by omega : ¬ 400 ≤ r2.status)]
  · intro h2
    simp only [TSC.raiseForStatus, if_pos h2]

/-- C7 counterexample to the claim as stated: with a stored record that is
non-empty and unexpired (e.g. the server revoked the token early), a
[401, 200] exchange performs zero refreshes — `get_token()` takes its fast
path — yet the claim demands exactly one. -/
theorem claim_C7_refresh_counterexample :
    (TSC.make_request ⟨none, none, none, none⟩ ⟨false, []⟩ 1000
        ⟨[("access_token", TSC.JVal.jstr "tok"),
          ("obtained_at", TSC.JVal.jnum 1000),
          ("expires_in", TSC.JVal.jnum 1000)], none⟩
        [] ⟨401, []⟩ ⟨200, []⟩).refreshes = 0 ∧
    (TSC.make_request ⟨none, none, none, none⟩ ⟨false, []⟩ 1000
        ⟨[("access_token", TSC.JVal.jstr "tok"),
          ("obtained_at", TSC.JVal.jnum 1000),
          ("expires_in", TSC.JVal.jnum 1000)], none⟩
        [] ⟨401, []⟩ ⟨200, []⟩).result = Except.ok [] ∧
    ¬ ((TSC.make_request ⟨none, none, none, none⟩ ⟨false, []⟩ 1000
        ⟨[("access_token", TSC.JVal.jstr "tok"),
          ("obtained_at", TSC.JVal.jnum 1000),
          ("expires_in", TSC.JVal.jnum 1000)], none⟩
        [] ⟨401, []⟩ ⟨200, []⟩).refreshes = 1) := by
  refine ⟨by decide, by rfl, by decide⟩

/-- C7 witness for the amended claim: an expired record plus a [401, 200]
exchange performs exactly one refresh, one retry, and returns the 200
payload. -/
theorem claim_C7_amended_auth_retry_witness :
    (TSC.make_request ⟨some "u", none, none, some "rt"⟩
        ⟨true, [("access_token", TSC.JVal.jstr "nt")]⟩ 5 ⟨[], none⟩
        [] ⟨401, []⟩ ⟨200, [("Bars", TSC.JVal.jnum 1)]⟩).tmCalls = 1 ∧
    (TSC.make_request ⟨some "u", none, none, some "rt"⟩
        ⟨true, [("access_token", TSC.JVal.jstr "nt")]⟩ 5 ⟨[], none⟩
        [] ⟨401, []⟩ ⟨200, [("Bars", TSC.JVal.jnum 1)]⟩).attempts = 2 ∧
    (TSC.make_request ⟨some "u", none, none, some "rt"⟩
        ⟨true, [("access_token", TSC.JVal.jstr "nt")]⟩ 5 ⟨[], none⟩
        [] ⟨401, []⟩ ⟨200, [("Bars", TSC.JVal.jnum 1)]⟩).refreshes = 1 ∧
    (TSC.make_request ⟨some "u", none, none, some "rt"⟩
        ⟨true, [("access_token", TSC.JVal.jstr "nt")]⟩ 5 ⟨[], none⟩
        [] ⟨401, []⟩ ⟨200, [("Bars", TSC.JVal.jnum 1)]⟩).result =
      Except.ok [("Bars", TSC.JVal.jnum 1)] := by
  obtain ⟨c1, c2, c3, c4, c5, c6, c7⟩ :=
    claim_C7_amended_auth_retry ⟨some "u", none, none, some "rt"⟩
      ⟨true, [("access_token", TSC.JVal.jstr "nt")]⟩ 5 ⟨[], none⟩
      [] ⟨401, []⟩ ⟨200, [("Bars", TSC.JVal.jnum 1)]⟩
      (TSC.JVal.jstr "nt")
      ⟨[("access_token", TSC.JVal.jstr "nt"),
        ("refresh_token", TSC.JVal.jstr "rt"),
        ("obtained_at", TSC.JVal.jnum 5)],
       some [("access_token", TSC.JVal.jstr "nt"),
        ("refresh_token", TSC.JVal.jstr "rt"),
        ("obtained_at", TSC.JVal.jnum 5)]⟩ 1
      rfl (by rfl)
  exact ⟨c1, c2, c4, c6 (by decide)⟩

/-! ## C9 — idle delay before reconnecting an empty stream -/

namespace TSC

/-- One line of a streaming response body (`resp.iter_lines()`): blank
keep-alive lines, well-formed JSON lines, malformed lines. -/
inductive SLine where
  | blank
  | json (d : PyDict)
  | malformed
  deriving Repr, DecidableEq

/-- One streaming connection attempt as the client observes it: the HTTP
status of the connect and the lines the body delivered before the server
closed the connection. -/
structure StreamConn where
  status : Nat
  lines : List SLine
  deriving Repr, DecidableEq

/-- Externally visible actions of the streaming loop, in order. -/
inductive StreamAct where
  | connectAttempt          -- `self._connect(...)`
  | refreshReconnect        -- 401: `_refresh_and_reconnect`
  | fatalStop               -- other non-ok status: log and `self.stop()`
  | dispatch (d : PyDict)   -- `on_message(data)`
  | malformedLog            -- `json.JSONDecodeError` logged, loop continues
  | idleSleep (secs : Nat)  -- `time.sleep(10)` when no data arrived
  | loopSleep (secs : Nat)  -- `time.sleep(1)` between loop iterations
  deriving Repr, DecidableEq

/-- The line loop body of `_run_stream`
(`tradestation_api_python/base_client.py` lines 197–209): blank lines are
skipped, well-formed JSON is dispatched to `on_message`, malformed JSON is
logged and skipped. -/
def lineAct : SLine → Option StreamAct
  | SLine.blank => none
  | SLine.json d => some (StreamAct.dispatch d)
  | SLine.malformed => some StreamAct.malformedLog

/-- `has_data` after the line loop: some non-blank line was reached.  The
`running` flag (`self._running`) breaks the loop before any line when the
session was stopped. -/
def streamHasData (running : Bool) (lines : List SLine) : Bool :=
  running && lines.any (fun ln => !(ln == SLine.blank))

/-- `BaseStreamClient._run_stream` (lines 163–220) over one connection:
a 401 refreshes the token and reconnects; any other non-ok status stops
the session; otherwise the body's lines are processed and — if not a
single non-blank line arrived — the method sleeps 10 seconds before
returning to `stream_loop`. -/
def runStreamOnce (running : Bool) (conn : StreamConn) : List StreamAct :=
  if conn.status == 401 then [StreamAct.refreshReconnect]
  else if 400 ≤ conn.status then [StreamAct.fatalStop]
  else
    (if running then conn.lines.filterMap lineAct else []) ++
      (if streamHasData running conn.lines then []
       else [StreamAct.idleSleep 10])

/-- One iteration of `stream_loop` (lines 241–255): connect and run the
connection; while still running, sleep one second before the next
iteration reconnects. -/
def streamLoopIter (running : Bool) (conn : StreamConn) : List StreamAct :=
  StreamAct.connectAttempt :: runStreamOnce running conn ++
    (if running then [StreamAct.loopSleep 1] else [])

end TSC

/-- C9: a connection that opens successfully (ok status, not 401) but
closes having delivered zero non-blank lines makes the session sleep the
10-second idle delay before control returns to the loop; the whole
iteration trace is connect, idle sleep, inter-iteration sleep — the next
reconnect only happens after the idle delay, not immediately. -/
theorem claim_C9_idle_delay_before_reconnect (conn : TSC.StreamConn)
    (hok : conn.status < 400) (h401 : conn.status ≠ 401)
    (hblank : ∀ ln ∈ conn.lines, ln = TSC.SLine.blank) :
    TSC.runStreamOnce true conn = [TSC.StreamAct.idleSleep 10] ∧
    TSC.streamLoopIter true conn =
      [TSC.StreamAct.connectAttempt, TSC.StreamAct.idleSleep 10,
       TSC.StreamAct.loopSleep 1] := by
  have h1 : TSC.runStreamOnce true conn = [TSC.StreamAct.idleSleep 10] := by
    unfold TSC.runStreamOnce
    rw [if_neg (by simp [h401]), if_neg (by omega)]
    have hfm : conn.lines.filterMap TSC.lineAct = [] := by
      rw [List.filterMap_eq_nil_iff]
      intro ln hln
      rw [hblank ln hln]
      rfl
    have hhd : TSC.streamHasData true conn.lines = false := by
      rw [TSC.streamHasData, Bool.true_and, List.any_eq_false]
      intro ln hln
      rw [hblank ln hln]
      decide
    rw [hfm, hhd]
    rfl
  refine ⟨h1, ?_⟩
  rw [TSC.streamLoopIter, h1]
  rfl

/-- C9 witness: a 200 connection delivering only two blank heartbeat lines
produces exactly the idle-sleep trace. -/
theorem claim_C9_idle_delay_before_reconnect_witness :
    TSC.runStreamOnce true ⟨200, [TSC.SLine.blank, TSC.SLine.blank]⟩ =
      [TSC.StreamAct.idleSleep 10] ∧
    TSC.streamLoopIter true ⟨200, [TSC.SLine.blank, TSC.SLine.blank]⟩ =
      [TSC.StreamAct.connectAttempt, TSC.StreamAct.idleSleep 10,
       TSC.StreamAct.loopSleep 1] :=
  claim_C9_idle_delay_before_reconnect ⟨200, [TSC.SLine.blank, TSC.SLine.blank]⟩
    (by decide) (by decide)
    (by intro ln hln; simpa using (by simpa using hln : ln = TSC.SLine.blank ∨ ln = TSC.SLine.blank).elim id id)
